import Mathlib

/-!
Verification of the dynamic filter-chain manager
(pkg/filter/filter_manager.go) of dubbo-go-pixiu.

The Go code manages an ordered chain of HTTP filter instances:

* `Apply(name, conf)` resolves `name` in the plugin registry, creates a
  fresh filter via the factory, binds `conf` onto the configuration
  object of the instance, and runs its initialization; each step may
  fail, in which case the error of the first failing step is returned
  together with a nil instance.
* `Load(filters)` builds a new chain by calling `Apply` for every
  descriptor in order, appending each result unconditionally (nil on
  failure), and then swaps the chain reference under the write lock.
* `GetFilters()` returns the current chain under the read lock.

The embedding is shallow: filter instances are a concrete structure
whose behavioural fields (factory success, config binding,
initialization) stand for the opaque plugin-defined code; a Go nil
interface value in the chain is `Option.none`; the plugin registry is a
lookup function from names to plugins.  Besides the plain functional
embedding there are a reference-level model (for the no-in-place-
mutation property), a state-passing model of `Apply` (for its frame
property) and an interleaving model of `Load` (for atomicity against
concurrent readers).
-/

/-- Raw options mapping of a descriptor (Go `map[string]interface{}`);
the values are opaque to the manager, so an association list of strings
suffices for the embedding. -/
def Conf : Type := List (String × String)

/-- An HTTP filter instance (Go `extension.HttpFilter`).  `cfg` is the
mutable configuration object returned by `Config()`; `bind` is the
behaviour of `yaml.ParseConfig` on this instance (`none` = bind error,
`some c` = the bound configuration); `initOk` is the behaviour of the
`Apply()` initialization entry point on a bound configuration. -/
structure HttpFilter where
  fid : Nat
  cfg : Conf
  bind : Conf → Option Conf
  initOk : Conf → Bool

/-- A registered plugin (Go `extension.HttpFilterPlugin`): its factory
`CreateFilter` either produces a fresh instance or fails. -/
structure Plugin where
  createFilter : Option HttpFilter

/-- The process-wide filter plugin registry
(Go `extension.GetHttpFilterPlugin`). -/
def Registry : Type := String → Option Plugin

/-- One filter descriptor (Go `model.Filter`): a name and raw options. -/
structure FilterModel where
  name : String
  config : Conf

/-- The per-descriptor build errors of `Apply`, in the order the Go
code checks them. -/
inductive ApplyError where
  | pluginNotFound
  | instantiationError
  | configBindError
  | initError
deriving DecidableEq, Repr

/-- Go `filterManager.Apply(name, conf)`: registry resolution, factory
instantiation, configuration binding, initialization, short-circuiting
on the first failure.  On success the returned instance carries the
bound configuration. -/
def Apply (reg : Registry) (name : String) (conf : Conf) :
    Except ApplyError HttpFilter :=
  match reg name with
  | none => .error .pluginNotFound
  | some plugin =>
    match plugin.createFilter with
    | none => .error .instantiationError
    | some filter =>
      match filter.bind conf with
      | none => .error .configBindError
      | some c =>
        let bound := { filter with cfg := c }
        if bound.initOk c then .ok bound else .error .initError

/-- The interface value Go stores for one descriptor: the instance on
success, the nil interface on error (`apply, err := fm.Apply(...)`
followed by an unconditional `append`). -/
def applyOpt (reg : Registry) (name : String) (conf : Conf) :
    Option HttpFilter :=
  match Apply reg name conf with
  | .ok f => some f
  | .error _ => none

/-- The manager state (Go `filterManager`): the active chain.  A chain
element is `none` exactly when the Go slice holds a nil interface. -/
structure filterManager where
  filters : List (Option HttpFilter)

/-- Go `NewFilterManager()`: a manager with an empty chain. -/
def NewFilterManager : filterManager := ⟨[]⟩

/-- Go `filterManager.GetFilters()`: the current chain. -/
def GetFilters (fm : filterManager) : List (Option HttpFilter) :=
  fm.filters

/-- The build loop of Go `Load`: walk the descriptors in order and
append each Apply result (nil included) to the accumulator `tmp`. -/
def loadLoop (reg : Registry) (descs : List FilterModel)
    (tmp : List (Option HttpFilter)) : List (Option HttpFilter) :=
  match descs with
  | [] => tmp
  | f :: rest => loadLoop reg rest (tmp ++ [applyOpt reg f.name f.config])

/-- Go `filterManager.Load(filters)`: build the new chain from scratch
and replace the active chain with it. -/
def Load (reg : Registry) (fm : filterManager) (descs : List FilterModel) :
    filterManager :=
  ⟨loadLoop reg descs []⟩

/-- The fully built chain for a descriptor list. -/
def builtChain (reg : Registry) (descs : List FilterModel) :
    List (Option HttpFilter) :=
  descs.map (fun f => applyOpt reg f.name f.config)

/- Concrete plugins and registry used by the closed witnesses. -/

/-- A filter whose binding and initialization always succeed. -/
def okFilter : HttpFilter :=
  ⟨1, [], fun c => some c, fun _ => true⟩

/-- A filter whose initialization fails. -/
def noInitFilter : HttpFilter :=
  ⟨2, [], fun c => some c, fun _ => false⟩

/-- A filter whose configuration binding fails. -/
def noBindFilter : HttpFilter :=
  ⟨3, [], fun _ => none, fun _ => true⟩

/-- A registry with one plugin per behaviour, plus a failing factory. -/
def testReg : Registry := fun n =>
  if n = "ok" then some ⟨some okFilter⟩
  else if n = "badfactory" then some ⟨none⟩
  else if n = "nobind" then some ⟨some noBindFilter⟩
  else if n = "noinit" then some ⟨some noInitFilter⟩
  else none

/-- The empty registry: no plugin is registered under any name. -/
def emptyReg : Registry := fun _ => none

/-!
Reference-level model.  In Go, `fm.filters` is a reference to a slice
and `GetFilters` hands that reference to readers; the mutation claims
are about what happens to memory a reader may still hold.  `FMHeap`
makes the references explicit: chains live in heap cells, the manager
holds the index of the active cell, `make` allocates a fresh cell, and
the swap in `Load` changes only the index held by the manager.
-/

/-- The manager with explicit chain references: `heap` holds every
chain ever allocated, `active` is the reference stored in
`fm.filters`. -/
structure FMHeap where
  heap : List (List (Option HttpFilter))
  active : Nat

/-- `NewFilterManager` at the reference level: one allocated empty
chain, marked active. -/
def NewFilterManagerH : FMHeap := ⟨[[]], 0⟩

/-- `GetFilters` at the reference level: the reference a reader
receives. -/
def GetFiltersH (fm : FMHeap) : Nat := fm.active

/-- Reading a chain through a reference. -/
def derefChain (fm : FMHeap) (r : Nat) : List (Option HttpFilter) :=
  fm.heap.getD r []

/-- `Load` at the reference level: `tmp := make(...)` allocates a fresh
cell, the loop fills only that cell, and the swap makes the manager
point at it. -/
def LoadH (reg : Registry) (fm : FMHeap) (descs : List FilterModel) :
    FMHeap :=
  ⟨fm.heap ++ [loadLoop reg descs []], fm.heap.length⟩

/-!
State-passing model of `Apply`.  `ProcState` is the state `Apply` can
reach: the process-wide plugin registry and the manager heap (the
active chain and every previously built chain).  The Go body of
`Apply` only reads the registry and calls plugin code; the embedding
threads the state through each step so that the frame property is a
statement about the code, branch by branch.
-/

/-- The state visible to `Apply`: the plugin registry and the manager
with its allocated chains. -/
structure ProcState where
  registry : Registry
  fm : FMHeap

/-- Go `filterManager.Apply` with the process state threaded through
every step of its body. -/
def ApplyS (st : ProcState) (name : String) (conf : Conf) :
    Except ApplyError HttpFilter × ProcState :=
  match st.registry name with
  | none => (.error .pluginNotFound, st)
  | some plugin =>
    match plugin.createFilter with
    | none => (.error .instantiationError, st)
    | some filter =>
      match filter.bind conf with
      | none => (.error .configBindError, st)
      | some c =>
        let bound := { filter with cfg := c }
        if bound.initOk c then (.ok bound, st)
        else (.error .initError, st)

/-!
Interleaving model of one `Load` against concurrent readers.  The
shared location is `fm.filters`; the write lock excludes readers.  The
body of `Load` is split into its atomic actions: one build iteration
per descriptor (touching only the local `tmp`), acquiring the write
lock, the reference swap, releasing the lock.  A reader that runs
between any two actions sees `shared`.
-/

/-- A point in the execution of `Load`: the shared chain reference
`fm.filters`, the local chain `tmp` under construction, whether the
write lock is held, and the program counter over the atomic actions of
the body. -/
structure LoadExec where
  shared : List (Option HttpFilter)
  tmp : List (Option HttpFilter)
  wlocked : Bool
  pc : Nat

/-- The state in which `Load` begins, with `old` the currently
published chain. -/
def initExec (old : List (Option HttpFilter)) : LoadExec := ⟨old, [], false, 0⟩

/-- The atomic actions of Go `Load`, as a step relation: each loop
iteration appends one Apply result to the local `tmp` while the lock
is free; then the write lock is taken, the shared reference is swapped
to the finished chain, and the lock is released. -/
inductive LoadStep (reg : Registry) (descs : List FilterModel) :
    LoadExec → LoadExec → Prop where
  | build (s : LoadExec) (h : s.pc < descs.length) (hl : s.wlocked = false) :
      LoadStep reg descs s
        ⟨s.shared,
         s.tmp ++ [applyOpt reg (descs.get ⟨s.pc, h⟩).name
                     (descs.get ⟨s.pc, h⟩).config],
         false, s.pc + 1⟩
  | lock (s : LoadExec) (h : s.pc = descs.length) (hl : s.wlocked = false) :
      LoadStep reg descs s ⟨s.shared, s.tmp, true, s.pc + 1⟩
  | swap (s : LoadExec) (h : s.pc = descs.length + 1) (hl : s.wlocked = true) :
      LoadStep reg descs s ⟨s.tmp, s.tmp, true, s.pc + 1⟩
  | unlock (s : LoadExec) (h : s.pc = descs.length + 2) (hl : s.wlocked = true) :
      LoadStep reg descs s ⟨s.shared, s.tmp, false, s.pc + 1⟩

/-- The invariant carried through the execution of `Load`: the shared
chain is the old one or the fully built new one, and `tmp` is the
prefix of the new chain built so far. -/
def LoadInv (reg : Registry) (descs : List FilterModel)
    (old : List (Option HttpFilter)) (s : LoadExec) : Prop :=
  (s.shared = old ∨ s.shared = builtChain reg descs) ∧
  (s.pc ≤ descs.length → s.tmp = builtChain reg (descs.take s.pc)) ∧
  (descs.length ≤ s.pc → s.tmp = builtChain reg descs)

/-! Supporting lemmas. -/

lemma loadLoop_eq (reg : Registry) (descs : List FilterModel)
    (tmp : List (Option HttpFilter)) :
    loadLoop reg descs tmp = tmp ++ builtChain reg descs := by
  induction descs generalizing tmp with
  | nil => simp [loadLoop, builtChain]
  | cons f rest ih =>
      simp [loadLoop, builtChain, ih, List.map_cons]

lemma Load_filters (reg : Registry) (fm : filterManager)
    (descs : List FilterModel) :
    (Load reg fm descs).filters = builtChain reg descs := by
  simp [Load, loadLoop_eq]

lemma LoadH_consistent (reg : Registry) (fm : FMHeap) (fm2 : filterManager)
    (descs : List FilterModel) :
    derefChain (LoadH reg fm descs) (GetFiltersH (LoadH reg fm descs)) =
      GetFilters (Load reg fm2 descs) := by
  simp [LoadH, GetFiltersH, derefChain, GetFilters, Load]

lemma ApplyS_state (st : ProcState) (name : String) (conf : Conf) :
    ApplyS st name conf = (Apply st.registry name conf, st) := by
  cases h1 : st.registry name with
  | none => simp [ApplyS, Apply, h1]
  | some p =>
    cases h2 : p.createFilter with
    | none => simp [ApplyS, Apply, h1, h2]
    | some f =>
      cases h3 : f.bind conf with
      | none => simp [ApplyS, Apply, h1, h2, h3]
      | some c =>
        by_cases h4 : f.initOk c <;>
          simp [ApplyS, Apply, h1, h2, h3, h4]

lemma builtChain_take_succ (reg : Registry) (descs : List FilterModel) :
    ∀ (i : Nat) (h : i < descs.length),
    builtChain reg (descs.take (i + 1)) =
      builtChain reg (descs.take i) ++
        [applyOpt reg (descs.get ⟨i, h⟩).name (descs.get ⟨i, h⟩).config] := by
  induction descs with
  | nil => intro i h; exact absurd h (by simp)
  | cons d rest ih =>
      intro i h
      cases i with
      | zero => simp [builtChain]
      | succ j =>
          have hj : j < rest.length := Nat.lt_of_succ_lt_succ h
          have step := ih j hj
          simp only [List.take, builtChain, List.map_cons, List.get] at step ⊢
          rw [step]
          simp

lemma loadInv_init (reg : Registry) (descs : List FilterModel)
    (old : List (Option HttpFilter)) :
    LoadInv reg descs old (initExec old) := by
  refine ⟨Or.inl rfl, fun _ => by simp [initExec, builtChain], fun h => ?_⟩
  have : descs = [] := List.eq_nil_of_length_eq_zero (Nat.le_zero.mp h)
  simp [initExec, builtChain, this]

lemma loadInv_step (reg : Registry) (descs : List FilterModel)
    (old : List (Option HttpFilter)) (s t : LoadExec)
    (hst : LoadStep reg descs s t) (hs : LoadInv reg descs old s) :
    LoadInv reg descs old t := by
  obtain ⟨hsh, htake, hfull⟩ := hs
  cases hst with
  | build h hl =>
      refine ⟨hsh, ?_, ?_⟩
      · intro hle
        have hle2 : s.pc + 1 ≤ descs.length := hle
        have ht : s.tmp = builtChain reg (descs.take s.pc) :=
          htake (Nat.le_of_lt h)
        show s.tmp ++ [applyOpt reg (descs.get ⟨s.pc, h⟩).name
            (descs.get ⟨s.pc, h⟩).config] =
          builtChain reg (descs.take (s.pc + 1))
        rw [ht, builtChain_take_succ reg descs s.pc h]
      · intro hge
        have hge2 : descs.length ≤ s.pc + 1 := hge
        have hpc : s.pc + 1 = descs.length := Nat.le_antisymm h hge2
        have ht : s.tmp = builtChain reg (descs.take s.pc) :=
          htake (Nat.le_of_lt h)
        show s.tmp ++ [applyOpt reg (descs.get ⟨s.pc, h⟩).name
            (descs.get ⟨s.pc, h⟩).config] = builtChain reg descs
        rw [ht, ← builtChain_take_succ reg descs s.pc h, hpc,
          List.take_length]
  | lock h hl =>
      refine ⟨hsh, ?_, ?_⟩
      · intro hle
        have hle2 : s.pc + 1 ≤ descs.length := hle
        exact absurd hle2 (by omega)
      · intro _
        show s.tmp = builtChain reg descs
        exact hfull (Nat.le_of_eq h.symm)
  | swap h hl =>
      have htmp : s.tmp = builtChain reg descs := hfull (by omega)
      refine ⟨Or.inr htmp, ?_, fun _ => htmp⟩
      intro hle
      have hle2 : s.pc + 1 ≤ descs.length := hle
      exact absurd hle2 (by omega)
  | unlock h hl =>
      refine ⟨hsh, ?_, fun _ => hfull (by omega)⟩
      intro hle
      have hle2 : s.pc + 1 ≤ descs.length := hle
      exact absurd hle2 (by omega)

lemma loadInv_reachable (reg : Registry) (descs : List FilterModel)
    (old : List (Option HttpFilter)) (s : LoadExec)
    (h : Relation.ReflTransGen (LoadStep reg descs) (initExec old) s) :
    LoadInv reg descs old s := by
  induction h with
  | refl => exact loadInv_init reg descs old
  | tail _ hstep ih => exact loadInv_step reg descs old _ _ hstep ih

/-! The claims. -/

/-- Claim C9: a freshly constructed filter manager has an empty active
chain: `GetFilters` on the manager returned by `NewFilterManager`,
before any `Load`, returns the empty sequence. -/
theorem newFilterManager_empty : GetFilters NewFilterManager = [] := rfl

/-- Claim C8: `Load` on an empty descriptor list succeeds (it is a
total function of the embedding, with no error outcome), and
`GetFilters` afterwards returns the empty sequence. -/
theorem load_empty_descriptors (reg : Registry) (fm : filterManager) :
    GetFilters (Load reg fm []) = [] := rfl

/-- Claim C10: the chain published by `Load` for a list of n
descriptors has length exactly n: one entry is appended per descriptor
unconditionally, including the nil Apply result of a failed
descriptor, so the published length never reflects a skip-failed
policy. -/
theorem load_length (reg : Registry) (fm : filterManager)
    (descs : List FilterModel) :
    (GetFilters (Load reg fm descs)).length = descs.length := by
  simp [GetFilters, Load_filters, builtChain]

/-- Claim C3: the initialized instances in the chain published by
`Load`, read in sequence order, are exactly the instances of the
descriptors whose Apply succeeded, in input order: the i-th successful
instance precedes the j-th whenever i < j, and no other instance
appears. -/
theorem load_preserves_order (reg : Registry) (fm : filterManager)
    (descs : List FilterModel) :
    (GetFilters (Load reg fm descs)).filterMap id =
      descs.filterMap (fun f => applyOpt reg f.name f.config) := by
  simp [GetFilters, Load_filters, builtChain, List.filterMap_map]

/-- Claim C5: for every name under which no factory is registered,
`Apply` fails with `pluginNotFound` and returns no filter instance,
regardless of the options mapping. -/
theorem apply_unknown_name (reg : Registry) (name : String) (conf : Conf)
    (h : reg name = none) :
    Apply reg name conf = .error .pluginNotFound := by
  simp [Apply, h]

/-- Witness for `apply_unknown_name` at a concrete registry, name and
non-empty options mapping. -/
theorem apply_unknown_name_witness :
    Apply emptyReg "auth" [("key", "value")] = .error .pluginNotFound :=
  apply_unknown_name emptyReg "auth" [("key", "value")] rfl

/-- Claim C4: `Apply` returns a ready instance exactly when all four
steps succeed, and otherwise the error of the first failing step, in
the fixed order registry resolution, factory instantiation,
configuration binding, initialization; after a failure, no later step
influences the result. -/
theorem apply_step_order (reg : Registry) (name : String) (conf : Conf) :
    (reg name = none → Apply reg name conf = .error .pluginNotFound) ∧
    (∀ p, reg name = some p → p.createFilter = none →
      Apply reg name conf = .error .instantiationError) ∧
    (∀ p f, reg name = some p → p.createFilter = some f →
      f.bind conf = none →
      Apply reg name conf = .error .configBindError) ∧
    (∀ p f c, reg name = some p → p.createFilter = some f →
      f.bind conf = some c → f.initOk c = false →
      Apply reg name conf = .error .initError) ∧
    (∀ p f c, reg name = some p → p.createFilter = some f →
      f.bind conf = some c → f.initOk c = true →
      Apply reg name conf = .ok { f with cfg := c }) := by
  refine ⟨fun h => by simp [Apply, h], ?_, ?_, ?_, ?_⟩
  · intro p hp hc
    simp [Apply, hp, hc]
  · intro p f hp hc hb
    simp [Apply, hp, hc, hb]
  · intro p f c hp hc hb hi
    simp [Apply, hp, hc, hb, hi]
  · intro p f c hp hc hb hi
    simp [Apply, hp, hc, hb, hi]

/-- Witness for `apply_step_order`: each of the five outcomes realized
at a concrete registry and descriptor. -/
theorem apply_step_order_witness :
    Apply testReg "missing" [] = .error .pluginNotFound ∧
    Apply testReg "badfactory" [] = .error .instantiationError ∧
    Apply testReg "nobind" [] = .error .configBindError ∧
    Apply testReg "noinit" [] = .error .initError ∧
    Apply testReg "ok" [] = .ok { okFilter with cfg := [] } :=
  ⟨(apply_step_order testReg "missing" []).1 rfl,
   (apply_step_order testReg "badfactory" []).2.1 ⟨none⟩ rfl rfl,
   (apply_step_order testReg "nobind" []).2.2.1 ⟨some noBindFilter⟩
     noBindFilter rfl rfl rfl,
   (apply_step_order testReg "noinit" []).2.2.2.1 ⟨some noInitFilter⟩
     noInitFilter [] rfl rfl rfl rfl,
   (apply_step_order testReg "ok" []).2.2.2.2 ⟨some okFilter⟩
     okFilter [] rfl rfl rfl rfl⟩

/-- Claim C1 (code bug): the Go `Load` loop appends the `Apply` result
unconditionally, so when `Apply` fails the published chain contains a
nil interface entry.  Evaluating the code at a one-descriptor list
whose name is not registered shows `GetFilters` returning a chain whose
single entry is nil, contradicting the requirement that every published
entry be an initialized instance. -/
theorem load_publishes_nil_entry :
    GetFilters (Load emptyReg NewFilterManager [⟨"auth", []⟩]) = [none] :=
  rfl

/-- Claim C6: a published chain is never mutated in place.  Every
`Load` allocates a brand-new cell for its chain and only redirects the
active reference to it, so every previously allocated chain cell — in
particular the one behind any reference a reader obtained from
`GetFilters` before the `Load` — holds exactly the same sequence
afterwards. -/
theorem load_no_in_place_mutation (reg : Registry) (fm : FMHeap)
    (descs : List FilterModel) (r : Nat) (h : r < fm.heap.length) :
    (LoadH reg fm descs).heap[r]? = fm.heap[r]? ∧
      derefChain (LoadH reg fm descs) r = derefChain fm r ∧
      (LoadH reg fm descs).active = fm.heap.length := by
  refine ⟨List.getElem?_append_left h, ?_, rfl⟩
  simp [derefChain, LoadH, List.getD]
  rw [List.getElem?_append_left h]

/-- Witness for `load_no_in_place_mutation`: the chain of a fresh
manager (the reference returned by its `GetFilters`) is unchanged by a
subsequent `Load`. -/
theorem load_no_in_place_mutation_witness :
    (LoadH testReg NewFilterManagerH [⟨"ok", []⟩]).heap[0]? =
        NewFilterManagerH.heap[0]? ∧
      derefChain (LoadH testReg NewFilterManagerH [⟨"ok", []⟩]) 0 =
        derefChain NewFilterManagerH 0 ∧
      (LoadH testReg NewFilterManagerH [⟨"ok", []⟩]).active =
        NewFilterManagerH.heap.length :=
  load_no_in_place_mutation testReg NewFilterManagerH [⟨"ok", []⟩] 0
    (by decide)

/-- Claim C7: `Apply` has no side effects outside the instance it
builds: whether it succeeds or fails, the plugin registry, the active
chain reference and every previously built chain are exactly as
before. -/
theorem apply_no_side_effects (st : ProcState) (name : String)
    (conf : Conf) :
    (ApplyS st name conf).2.registry = st.registry ∧
      (ApplyS st name conf).2.fm.active = st.fm.active ∧
      (ApplyS st name conf).2.fm.heap = st.fm.heap := by
  simp [ApplyS_state]

/-- Claim C2: `Load` is atomic with respect to concurrent readers.  In
the interleaving model of one `Load` from the published chain `old`,
every reachable point shows readers either the fully old chain or the
fully built new chain, never a torn intermediate; moreover the shared
reference is only ever changed while the write lock is held, and every
build action of the loop runs with the lock free. -/
theorem load_atomic_publication (reg : Registry) (descs : List FilterModel)
    (old : List (Option HttpFilter)) :
    (∀ s, Relation.ReflTransGen (LoadStep reg descs) (initExec old) s →
      s.shared = old ∨ s.shared = builtChain reg descs) ∧
    (∀ s t, LoadStep reg descs s t → t.shared ≠ s.shared →
      s.wlocked = true) ∧
    (∀ s t, LoadStep reg descs s t → t.tmp ≠ s.tmp → s.wlocked = false) := by
  refine ⟨fun s h => (loadInv_reachable reg descs old s h).1, ?_, ?_⟩
  · intro s t hst hne
    cases hst with
    | build h hl => exact absurd rfl hne
    | lock h hl => exact absurd rfl hne
    | swap h hl => exact hl
    | unlock h hl => exact absurd rfl hne
  · intro s t hst hne
    cases hst with
    | build h hl => exact hl
    | lock h hl => exact absurd rfl hne
    | swap h hl => exact absurd rfl hne
    | unlock h hl => exact absurd rfl hne

/-- Witness for `load_atomic_publication`: after one concrete build
step of a one-descriptor `Load`, the reader view is the old chain or
the finished new chain. -/
theorem load_atomic_publication_witness :
    (⟨[], [applyOpt testReg "ok" []], false, 1⟩ : LoadExec).shared = [] ∨
      (⟨[], [applyOpt testReg "ok" []], false, 1⟩ : LoadExec).shared =
        builtChain testReg [⟨"ok", []⟩] :=
  (load_atomic_publication testReg [⟨"ok", []⟩] []).1 _
    (Relation.ReflTransGen.single
      (LoadStep.build (initExec []) (by decide) rfl))
